import Mathlib

/-!
The tUtil (LuaCOM utility layer): a shallow embedding and its checked properties

The embedding follows `src/library/tUtil.cpp`:

* `bstr2string` / `string2bstr`  — the string codec between BSTR and byte buffers,
* `OpenLogFile` / `CloseLogFile` / `log` — the diagnostic log sink,
* `VariantTimeToSystemTimeWithMilliseconds` /
  `SystemTimeToVariantTimeWithMilliseconds` — the variant-time codec.

Operating-system and C-library services the file calls (the two code-page
transcoders, `SysAllocStringLen`, `fopen`, `vfprintf`, the native
`VariantTimeToSystemTime` / `SystemTimeToVariantTime`) are parameters of the
embedded functions.  Concrete reference instances of these services are given
in namespace `Ref`; they are used only to evaluate the code at explicit inputs.

The embedding is sequential: the critical section that serialises the log
functions is not represented.
-/

namespace TUtil

/-! ## Machine numbers -/

/-- Largest value of a C `int` (32 bit). -/
def INT_MAX : Nat := 2147483647

/-- Largest value of a `size_t` (64 bit build); it is what `-1` converts to. -/
def SIZE_MAX : Nat := 2 ^ 64 - 1

/-- The conversion `static_cast<int>(n)` of an unsigned value: reduction modulo
`2^32`, read as a two's complement number. -/
def static_cast_int (n : Nat) : Int :=
  if n % 2 ^ 32 < 2 ^ 31 then ((n % 2 ^ 32 : Nat) : Int) else ((n % 2 ^ 32 : Nat) : Int) - 2 ^ 32

/-! ## IEEE-754 binary64 arithmetic

A finite `double` is represented by the rational number it denotes.  Every
arithmetic operation computes the exact rational result and rounds it to the
nearest binary64 value, ties to even (`rnd64`).  Infinities and NaN are not
represented: the model covers computations that stay below `2^1024`, which is
the case for every variant time. -/

/-- The value of a finite `double`. -/
abbrev Double := ℚ

/-- Number of binary digits of `n`, computed with at most `fuel` halvings. -/
def bitLenAux : Nat → Nat → Nat
  | 0, _ => 0
  | fuel + 1, n => if n = 0 then 0 else bitLenAux fuel (n / 2) + 1

/-- Number of binary digits of `n` (`0` for `0`); `n` halvings always suffice. -/
def bitLen (n : Nat) : Nat := bitLenAux n n

/-- The quotient `n / d` rounded to the nearest natural number, ties to even. -/
def roundHalfEven (n d : Nat) : Nat :=
  if 2 * (n % d) < d then n / d
  else if d < 2 * (n % d) then n / d + 1
  else if (n / d) % 2 = 0 then n / d else n / d + 1

/-- The binary exponent `e` of the positive rational `n / d`:
`2^e ≤ n / d < 2^(e+1)`. -/
def binExp (n d : Nat) : Int :=
  let e : Int := (bitLen n : Int) - (bitLen d : Int)
  if e ≥ 0 then (if n < d * 2 ^ e.toNat then e - 1 else e)
  else (if n * 2 ^ (-e).toNat < d then e - 1 else e)

/-- Round the non-negative rational `n / d` to binary64: the unit in the last
place is `2^q` with `q = max (e - 52) (-1074)`. -/
def rnd64Nat (n d : Nat) : ℚ :=
  if n = 0 then 0
  else
    let q : Int := max (binExp n d - 52) (-1074)
    if q ≥ 0 then ((roundHalfEven n (d * 2 ^ q.toNat) * 2 ^ q.toNat : Nat) : ℚ)
    else ((roundHalfEven (n * 2 ^ (-q).toNat) d : Nat) : ℚ) / ((2 ^ (-q).toNat : Nat) : ℚ)

/-- Round to nearest binary64, ties to even. -/
def rnd64 (x : ℚ) : Double :=
  if x.num < 0 then - rnd64Nat x.num.natAbs x.den else rnd64Nat x.num.natAbs x.den

/-- Addition of doubles. -/
def fadd (a b : Double) : Double := rnd64 (a + b)
/-- Subtraction of doubles. -/
def fsub (a b : Double) : Double := rnd64 (a - b)
/-- Multiplication of doubles. -/
def fmul (a b : Double) : Double := rnd64 (a * b)
/-- Division of doubles (the divisor is non-zero wherever the code divides). -/
def fdiv (a b : Double) : Double := rnd64 (a / b)

/-- The conversion `(int)x` to a 32-bit `int`: truncation toward zero when the
truncated value fits, that is for `-2^31 - 1 < x < 2^31`.  Outside that range
the C conversion is undefined; the value taken here is the one the x86
conversion instruction delivers, `INT_MIN`. -/
def toInt (x : Double) : Int :=
  if -2147483649 < x ∧ x < 2147483648 then (if 0 ≤ x then ⌊x⌋ else ⌈x⌉) else -2147483648

/-- The conversion of an `int` to `double` (exact). -/
def ofInt (n : Int) : Double := (n : ℚ)

/-- The conversion `(WORD)x` of a double: truncation, then 16 bits. -/
def toWORD (x : Double) : Nat := (toInt x).toNat % 65536

/-- The literal `.0000115740740740` as the compiler stores it. -/
def ONETHOUSANDMILLISECONDS : Double := rnd64 (115740740740 / 10000000000000000)

/-! ## String codec -/

/-- Modelled from the spec: the class `tStringBuffer` (declared in
`tStringBuffer.h`, which is not among the sources) is the specification's
ByteString, a counted sequence of 8-bit code units that is not assumed to be
null-terminated.  Its logical length is the length of the list; the C string
`""` converts to the empty sequence. -/
abbrev tStringBuffer := List Nat

/-- Modelled from the spec: the exception class `tLuaCOMException` and the
macro `LUACOM_ERROR` that throws it (`tLuaCOMException.h` is not among the
sources).  The exception carries either the literal message
`"string too long"` (the specification's LengthError) or the text of the last
system error (its EncodingError). -/
inductive tLuaCOMException where
  | string_too_long
  | system_error
  deriving DecidableEq

/-- The platform services the string codec calls.  Both transcoders take the
source units, the source count (an `int`; `-1` asks for a terminator scan) and
the capacity of the destination, `0` for a sizing query.  They return the
`int` result (`0` reports failure) and the units they stored. -/
structure Platform where
  MultiByteToWideChar : List Nat → Int → Nat → Nat × List Nat
  WideCharToMultiByte : List Nat → Int → Nat → Nat × List Nat
  /-- The unit found at each index of a freshly allocated block. -/
  fresh : Nat → Nat

/-- A platform call made by the codec, for the call trace. -/
inductive Call where
  | WideCharToMultiByte (cchWideChar : Int) (cbMultiByte : Nat)
  | newBuffer (size : Nat)
  deriving DecidableEq

/-- A freshly allocated block of `n` units (`new char[n]`,
`SysAllocStringLen(NULL, n)`): its contents are not initialised. -/
def alloc (P : Platform) (n : Nat) : List Nat := (List.range n).map P.fresh

/-- The block `buf` after a transcoder stored `written` at its start. -/
def store (buf written : List Nat) : List Nat :=
  (written ++ buf.drop written.length).take buf.length

/-- `SysStringLen`: the number of code units of a BSTR, a `UINT`. -/
def SysStringLen (bstr : List Nat) : Nat := bstr.length % 2 ^ 32

/-- The body of the `try` block of `tUtil::bstr2string`, with the trace of
platform calls it made.  A `BSTR` is `none` (the null pointer) or its units.
The sum `lenMulti + 1` is computed without wrap-around; it would overflow
only for `lenMulti = INT_MAX`. -/
def bstr2string_try (P : Platform) (bstr : Option (List Nat)) (nullTerminated : Bool) :
    Except tLuaCOMException tStringBuffer × List Call :=
  match bstr with
  | none => (.ok [], [])
  | some w =>
    let lenWide := SysStringLen w
    if lenWide > INT_MAX then (.error .string_too_long, [])
    else if lenWide = 0 then (.ok [], [])
    else
      let call1 := Call.WideCharToMultiByte (static_cast_int lenWide) 0
      let lenMulti := (P.WideCharToMultiByte w (static_cast_int lenWide) 0).1
      if lenMulti = 0 then (.error .system_error, [call1])
      else
        let size := lenMulti + (if nullTerminated then 1 else 0)
        let str := alloc P size
        let call2 := Call.WideCharToMultiByte (static_cast_int lenWide) lenMulti
        let r := P.WideCharToMultiByte w (static_cast_int lenWide) lenMulti
        let str := store str (r.2.take lenMulti)
        if r.1 = 0 then (.error .system_error, [call1, .newBuffer size, call2])
        else
          let str := if nullTerminated then str.set lenMulti 0 else str
          let len := lenMulti + (if nullTerminated then 1 else 0)
          (.ok (str.take len), [call1, .newBuffer size, call2])

/-- `tUtil::bstr2string`: the `catch` clause turns every exception into `""`. -/
def bstr2string (P : Platform) (bstr : Option (List Nat)) (nullTerminated : Bool) :
    tStringBuffer :=
  match (bstr2string_try P bstr nullTerminated).1 with
  | .ok s => s
  | .error _ => []

/-- The body of the `try` block of `tUtil::string2bstr` (for a non-null
`string`). -/
def string2bstr_try (P : Platform) (string : List Nat) (len : Nat) :
    Except tLuaCOMException (List Nat) :=
  if len = 0 then .ok []
  else if len ≠ SIZE_MAX ∧ len > INT_MAX then .error .string_too_long
  else
    let lenWide := (P.MultiByteToWideChar string (static_cast_int len) 0).1
    if lenWide = 0 then .error .system_error
    else
      let bstr := alloc P lenWide
      let r := P.MultiByteToWideChar string (static_cast_int len) lenWide
      .ok (store bstr (r.2.take lenWide))

/-- `tUtil::string2bstr`: `none` is the null `BSTR`. -/
def string2bstr (P : Platform) (string : Option (List Nat)) (len : Nat) :
    Option (List Nat) :=
  match string with
  | none => none
  | some s =>
    match string2bstr_try P s len with
    | .ok bstr => some bstr
    | .error _ => none

/-- The platform transcodes the bytes `b` to the wide units `w` and `w` back to
`b`: both sizing queries report the exact length and both conversions store
the text. -/
structure RoundTrips (P : Platform) (b w : List Nat) : Prop where
  wide_pos : 0 < w.length
  wide_le : w.length ≤ INT_MAX
  mb_size : (P.MultiByteToWideChar b (b.length : Int) 0).1 = w.length
  mb_conv : (P.MultiByteToWideChar b (b.length : Int) w.length).2 = w
  wc_size : (P.WideCharToMultiByte w (w.length : Int) 0).1 = b.length
  wc_conv : P.WideCharToMultiByte w (w.length : Int) b.length = (b.length, b)

/-! ## Diagnostic log sink -/

/-- A C string without its terminator. -/
abbrev CString := List Char

/-- The sink and the part of the file system it touches.  A stream is
identified by the name of the file it writes. -/
structure LogState where
  /-- `tUtil::log_file`; `none` is `NULL`. -/
  log_file : Option CString
  /-- The streams `fopen` returned that were not yet passed to `fclose`. -/
  streams : List CString
  /-- The contents of every file (`none`: no such file). -/
  files : CString → Option (List Char)
  /-- Whether `fopen(name, "w")` succeeds. -/
  canOpen : CString → Bool

/-- Output of `text` to the stream `f`, followed sooner or later by a flush. -/
def fputs (s : LogState) (f : CString) (text : List Char) : LogState :=
  { s with files := Function.update s.files f (some ((s.files f).getD [] ++ text)) }

/-- `tUtil::CloseLogFile`. -/
def CloseLogFile (s : LogState) : LogState :=
  match s.log_file with
  | some f => { s with streams := s.streams.erase f, log_file := none }
  | none => s

/-- `tUtil::OpenLogFile`: the new state and the returned `bool`. -/
def OpenLogFile (s : LogState) (name : CString) : LogState × Bool :=
  let s := CloseLogFile s
  if s.canOpen name then
    ({ s with log_file := some name, streams := name :: s.streams,
              files := Function.update s.files name (some []) }, true)
  else
    ({ s with log_file := none }, false)

/-- `tUtil::log` (built without `VERBOSE`).  `vfprintf` yields the text that
the C library prints for a format and its arguments; `oob` is the byte that
`what[strlen(what) - 1]` reads when `what` is empty. -/
def log {α : Type} (vfprintf : CString → α → List Char) (oob : Char) (s : LogState)
    (who what : Option CString) (args : α) : LogState :=
  match s.log_file, who, what with
  | some f, some who, some what =>
    let s := fputs s f (who ++ [':'])
    let s := fputs s f (vfprintf what args)
    if what.getLast?.getD oob ≠ '\n' then fputs s f ['\n'] else s
  | _, _, _ => s

/-! ## Variant-time codec -/

/-- The Win32 `SYSTEMTIME` record; every field is a `WORD`. -/
structure SYSTEMTIME where
  wYear : Nat
  wMonth : Nat
  wDayOfWeek : Nat
  wDay : Nat
  wHour : Nat
  wMinute : Nat
  wSecond : Nat
  wMilliseconds : Nat
  deriving DecidableEq

/-- The shift `halfsecond = ONETHOUSANDMILLISECONDS / 2.0` of
`VariantTimeToSystemTimeWithMilliseconds`. -/
def halfsecond : Double := fdiv ONETHOUSANDMILLISECONDS 2

/-- The value of the local `milliseconds` of
`VariantTimeToSystemTimeWithMilliseconds` after the line
`milliseconds = milliseconds + 0.5`, that is, before the range test. -/
def millisecondsRounded (dVariantTime : Double) : Double :=
  let fraction := fsub dVariantTime (ofInt (toInt dVariantTime))
  let fraction := fmul (fsub fraction (ofInt (toInt fraction))) 24
  let hours := fraction
  let minutes := fmul (fsub hours (ofInt (toInt hours))) 60
  let seconds := fmul (fsub minutes (ofInt (toInt minutes))) 60
  let milliseconds := fmul (fsub seconds (ofInt (toInt seconds))) 1000
  fadd milliseconds (1 / 2)

/-- The value of the local `milliseconds` after the range test
`if (milliseconds < 1.0 || milliseconds > 999.0) milliseconds = 0`. -/
def millisecondsClamped (dVariantTime : Double) : Double :=
  let milliseconds := millisecondsRounded dVariantTime
  if milliseconds < 1 ∨ milliseconds > 999 then 0 else milliseconds

/-- `tUtil::VariantTimeToSystemTimeWithMilliseconds`.  The native conversion
`VariantTimeToSystemTime` is a parameter; `none` stands for the result `FALSE`. -/
def VariantTimeToSystemTimeWithMilliseconds
    (VariantTimeToSystemTime : Double → Option SYSTEMTIME) (dVariantTime : Double) :
    Option SYSTEMTIME :=
  match VariantTimeToSystemTime (fsub dVariantTime halfsecond) with
  | none => none
  | some st =>
    let milliseconds := millisecondsClamped dVariantTime
    if milliseconds ≠ 0 then
      some { st with wMilliseconds := toWORD milliseconds }
    else
      VariantTimeToSystemTime dVariantTime

/-- `tUtil::SystemTimeToVariantTimeWithMilliseconds`.  The native conversion
`SystemTimeToVariantTime` is a parameter; `none` stands for the result `FALSE`. -/
def SystemTimeToVariantTimeWithMilliseconds
    (SystemTimeToVariantTime : SYSTEMTIME → Option Double) (st : SYSTEMTIME) :
    Option Double :=
  let wMilliSeconds := st.wMilliseconds
  match SystemTimeToVariantTime { st with wMilliseconds := 0 } with
  | none => none
  | some dWithoutms =>
    some (fadd dWithoutms (fdiv (fmul ONETHOUSANDMILLISECONDS (ofInt wMilliSeconds)) 1000))

/-- The millisecond chain as the specification words it,
`frac(v)*24 -> frac(.)*60 -> frac(.)*60 -> frac(.)*1000` with
`frac(x) = x - floor(x)`, for comparison with `millisecondsRounded`. -/
def specMilliseconds (v : Double) : Double :=
  let frac := fun (x : Double) => fsub x (ofInt ⌊x⌋)
  let hours := fmul (frac v) 24
  let minutes := fmul (frac hours) 60
  let seconds := fmul (frac minutes) 60
  fmul (frac seconds) 1000

/-- Round to the nearest integer (half up), as the specification words the
last step of the chain. -/
def specRound (x : Double) : Int := ⌊fadd x (1 / 2)⌋

/-! ### Reference model of the native conversions

The OLE automation date: day `0` is 1899-12-30; for negative values the integer
part is the (negative) day number and the magnitude of the fraction is the time
of day.  The native conversions ignore and return zero milliseconds and round
to the nearest second. -/

namespace Ref

/-- Leap years of the Gregorian calendar. -/
def isLeapYear (y : Nat) : Bool := (y % 4 = 0 ∧ y % 100 ≠ 0) ∨ y % 400 = 0

/-- Number of days of month `m` in year `y`. -/
def daysInMonth (y m : Nat) : Nat :=
  if m = 2 then (if isLeapYear y then 29 else 28)
  else if m = 4 ∨ m = 6 ∨ m = 9 ∨ m = 11 then 30 else 31

/-- Day number (1899-12-30 is day `0`) of the civil date `y`-`m`-`d`. -/
def dayNumber (y m d : Int) : Int :=
  let y1 := if m ≤ 2 then y - 1 else y
  let era := y1 / 400
  let yoe := y1 - era * 400
  let mp := (m + 9) % 12
  let doy := (153 * mp + 2) / 5 + d - 1
  let doe := yoe * 365 + yoe / 4 - yoe / 100 + doy
  era * 146097 + doe - 719468 + 25569

/-- Civil date (year, month, day) of a day number. -/
def civilDate (n : Int) : Int × Int × Int :=
  let z := n - 25569 + 719468
  let era := z / 146097
  let doe := z - era * 146097
  let yoe := (doe - doe / 1460 + doe / 36524 - doe / 146096) / 365
  let doy := doe - (365 * yoe + yoe / 4 - yoe / 100)
  let mp := (5 * doy + 2) / 153
  let d := doy - (153 * mp + 2) / 5 + 1
  let m := if mp < 10 then mp + 3 else mp - 9
  let y := yoe + era * 400
  (if m ≤ 2 then y + 1 else y, m, d)

/-- Reference `SystemTimeToVariantTime`: years 100..9999, the day-of-week and
millisecond fields are ignored. -/
def SystemTimeToVariantTime (st : SYSTEMTIME) : Option Double :=
  if 100 ≤ st.wYear ∧ st.wYear ≤ 9999 ∧ 1 ≤ st.wMonth ∧ st.wMonth ≤ 12 ∧
      1 ≤ st.wDay ∧ st.wDay ≤ daysInMonth st.wYear st.wMonth ∧
      st.wHour < 24 ∧ st.wMinute < 60 ∧ st.wSecond < 60 then
    let day := dayNumber st.wYear st.wMonth st.wDay
    let time : ℚ := ((st.wHour * 3600 + st.wMinute * 60 + st.wSecond : Nat) : ℚ) / 86400
    some (rnd64 (if 0 ≤ day then (day : ℚ) + time else (day : ℚ) - time))
  else none

/-- Reference `VariantTimeToSystemTime`: rounds to the nearest second and
returns zero milliseconds; dates outside the years 100..9999 are rejected. -/
def VariantTimeToSystemTime (v : Double) : Option SYSTEMTIME :=
  let day := toInt v
  let secs := ⌊|v - (day : ℚ)| * 86400 + 1 / 2⌋
  let day := if secs ≥ 86400 then day + 1 else day
  let secs := if secs ≥ 86400 then 0 else secs
  let ymd := civilDate day
  if 100 ≤ ymd.1 ∧ ymd.1 ≤ 9999 then
    some { wYear := ymd.1.toNat, wMonth := ymd.2.1.toNat, wDay := ymd.2.2.toNat,
           wDayOfWeek := ((day + 6) % 7).toNat,
           wHour := (secs / 3600).toNat, wMinute := (secs % 3600 / 60).toNat,
           wSecond := (secs % 60).toNat, wMilliseconds := 0 }
  else none

/-- Reference code page: a single-byte Western encoding in which byte `n`
and wide unit `n` denote the same character; wide units above `255` become
`?`.  A negative count scans up to and including the terminator; a
destination that is too small is an error. -/
def transcode (toByte : Bool) (src : List Nat) (count : Int) (cap : Nat) : Nat × List Nat :=
  let units := if count < 0 then src.takeWhile (· ≠ 0) ++ [0] else src.take count.toNat
  let out := if toByte then units.map (fun u => if u < 256 then u else 63) else units
  if cap = 0 then (out.length, [])
  else if out.length ≤ cap then (out.length, out)
  else (0, [])

/-- Reference platform of the string codec; fresh memory holds `204`. -/
def latin1 : Platform :=
  { MultiByteToWideChar := transcode false
    WideCharToMultiByte := transcode true
    fresh := fun _ => 204 }

/-- A platform whose sizing query succeeds and whose conversion into a
buffer reports failure without storing anything. -/
def secondPassFails : Platform :=
  { latin1 with
    MultiByteToWideChar := fun src count cap =>
      if cap = 0 then transcode false src count cap else (0, []) }

/-- Reference formatter: `vfprintf` restricted to the directives `%s` and
`%%`; the arguments are the strings for the `%s` directives. -/
def vfprintf : CString → List CString → List Char
  | '%' :: 's' :: rest, a :: args => a ++ vfprintf rest args
  | '%' :: '%' :: rest, args => '%' :: vfprintf rest args
  | c :: rest, args => c :: vfprintf rest args
  | [], _ => []

/-- A sink writing the file `log`, which is empty so far. -/
def openSink : LogState :=
  { log_file := some ['l', 'o', 'g']
    streams := [['l', 'o', 'g']]
    files := fun n => if n = ['l', 'o', 'g'] then some [] else none
    canOpen := fun n => n ≠ [] }

end Ref

/-! ## Auxiliary facts -/

theorem rnd64Nat_nonneg (n d : Nat) : 0 ≤ rnd64Nat n d := by
  unfold rnd64Nat
  split_ifs <;> positivity

theorem rnd64_nonneg {x : ℚ} (hx : 0 ≤ x) : 0 ≤ rnd64 x := by
  unfold rnd64
  have h : ¬ x.num < 0 := not_lt.mpr (Rat.num_nonneg.mpr hx)
  rw [if_neg h]
  exact rnd64Nat_nonneg _ _

theorem toInt_of_nonneg {x : Double} (hx : 0 ≤ x) (hlt : x < 2147483648) : toInt x = ⌊x⌋ := by
  unfold toInt
  rw [if_pos ⟨lt_of_lt_of_le (by norm_num) hx, hlt⟩, if_pos hx]

theorem bitLenAux_spec : ∀ (fuel n : Nat), n ≤ fuel →
    n < 2 ^ bitLenAux fuel n ∧ (n ≠ 0 → 1 ≤ bitLenAux fuel n ∧ 2 ^ (bitLenAux fuel n - 1) ≤ n) := by
  intro fuel
  induction fuel with
  | zero =>
    intro n hn
    have h0 : n = 0 := Nat.le_zero.mp hn
    subst h0
    exact ⟨by simp [bitLenAux], fun h => absurd rfl h⟩
  | succ fuel ih =>
    intro n hn
    by_cases h0 : n = 0
    · subst h0
      exact ⟨by simp [bitLenAux], fun h => absurd rfl h⟩
    · have hrec : bitLenAux (fuel + 1) n = bitLenAux fuel (n / 2) + 1 := by
        simp [bitLenAux, h0]
      have hle : n / 2 ≤ fuel := by omega
      obtain ⟨hlt, hge⟩ := ih (n / 2) hle
      rw [hrec]
      refine ⟨?_, fun _ => ⟨by omega, ?_⟩⟩
      · rw [pow_succ]; omega
      · simp only [Nat.add_sub_cancel]
        by_cases h2 : n / 2 = 0
        · have h1 : bitLenAux fuel (n / 2) = 0 := by
            rw [h2]; cases fuel <;> simp [bitLenAux]
          rw [h1]; simp; omega
        · obtain ⟨hk, hp⟩ := hge h2
          have : 2 ^ bitLenAux fuel (n / 2) = 2 ^ (bitLenAux fuel (n / 2) - 1) * 2 := by
            rw [← pow_succ]; congr 1; omega
          omega

theorem bitLen_spec {n : Nat} (hn : n ≠ 0) :
    1 ≤ bitLen n ∧ 2 ^ (bitLen n - 1) ≤ n ∧ n < 2 ^ bitLen n := by
  obtain ⟨h1, h2⟩ := bitLenAux_spec n n (le_refl n)
  obtain ⟨h3, h4⟩ := h2 hn
  exact ⟨h3, h4, h1⟩

theorem bitLen_spec_rat {n : Nat} (hn : n ≠ 0) :
    (2 : ℚ) ^ ((bitLen n : Int) - 1) ≤ (n : ℚ) ∧ (n : ℚ) < (2 : ℚ) ^ (bitLen n : Int) := by
  obtain ⟨h1, h2, h3⟩ := bitLen_spec hn
  constructor
  · have : ((bitLen n : Int) - 1) = ((bitLen n - 1 : Nat) : Int) := by omega
    rw [this, zpow_natCast]
    exact_mod_cast h2
  · rw [zpow_natCast]
    exact_mod_cast h3


theorem binExp_test_nonneg {n d : Nat} (hd : d ≠ 0) {e : Int} (he : 0 ≤ e) :
    n < d * 2 ^ e.toNat ↔ (n : ℚ) / d < (2 : ℚ) ^ e := by
  have dpos : (0 : ℚ) < d := by exact_mod_cast Nat.pos_of_ne_zero hd
  have hcast : (2 : ℚ) ^ e = ((2 ^ e.toNat : Nat) : ℚ) := by
    conv_lhs => rw [← Int.toNat_of_nonneg he]
    rw [zpow_natCast]; push_cast; rfl
  rw [div_lt_iff₀ dpos, hcast, mul_comm, ← Nat.cast_mul, Nat.cast_lt]

theorem binExp_test_neg {n d : Nat} (hd : d ≠ 0) {e : Int} (he : e < 0) :
    n * 2 ^ (-e).toNat < d ↔ (n : ℚ) / d < (2 : ℚ) ^ e := by
  have dpos : (0 : ℚ) < d := by exact_mod_cast Nat.pos_of_ne_zero hd
  have hpos : (0 : ℚ) < ((2 ^ (-e).toNat : Nat) : ℚ) := by positivity
  have hcast : (2 : ℚ) ^ e = 1 / ((2 ^ (-e).toNat : Nat) : ℚ) := by
    have h1 : e = - ((-e).toNat : Int) := by omega
    conv_lhs => rw [h1]
    rw [zpow_neg, zpow_natCast]; push_cast; simp
  rw [hcast, div_lt_div_iff₀ dpos hpos, one_mul, ← Nat.cast_mul, Nat.cast_lt]

theorem binExp_spec {n d : Nat} (hn : n ≠ 0) (hd : d ≠ 0) :
    (2 : ℚ) ^ binExp n d ≤ (n : ℚ) / d ∧ (n : ℚ) / d < (2 : ℚ) ^ (binExp n d + 1) := by
  obtain ⟨hn1, hn2⟩ := bitLen_spec_rat hn
  obtain ⟨hd1, hd2⟩ := bitLen_spec_rat hd
  have dpos : (0 : ℚ) < d := by exact_mod_cast Nat.pos_of_ne_zero hd
  have two : (2 : ℚ) ≠ 0 := by norm_num
  have hup : (n : ℚ) / d < (2 : ℚ) ^ ((bitLen n : Int) - (bitLen d : Int) + 1) := by
    rw [div_lt_iff₀ dpos]
    calc (n : ℚ) < (2 : ℚ) ^ (bitLen n : Int) := hn2
      _ = (2 : ℚ) ^ ((bitLen n : Int) - (bitLen d : Int) + 1) * (2 : ℚ) ^ ((bitLen d : Int) - 1) := by
          rw [← zpow_add₀ two]; congr 1; ring
      _ ≤ (2 : ℚ) ^ ((bitLen n : Int) - (bitLen d : Int) + 1) * d :=
          mul_le_mul_of_nonneg_left hd1 (by positivity)
  have hlo : (2 : ℚ) ^ ((bitLen n : Int) - (bitLen d : Int) - 1) ≤ (n : ℚ) / d := by
    rw [le_div_iff₀ dpos]
    calc (2 : ℚ) ^ ((bitLen n : Int) - (bitLen d : Int) - 1) * d
        ≤ (2 : ℚ) ^ ((bitLen n : Int) - (bitLen d : Int) - 1) * (2 : ℚ) ^ (bitLen d : Int) :=
          mul_le_mul_of_nonneg_left hd2.le (by positivity)
      _ = (2 : ℚ) ^ ((bitLen n : Int) - 1) := by
          rw [← zpow_add₀ two]; congr 1; ring
      _ ≤ n := hn1
  unfold binExp
  simp only []
  by_cases he : (bitLen n : Int) - (bitLen d : Int) ≥ 0
  · rw [if_pos he]
    by_cases ht : n < d * 2 ^ ((bitLen n : Int) - (bitLen d : Int)).toNat
    · rw [if_pos ht]
      refine ⟨hlo, ?_⟩
      rw [sub_add_cancel]
      exact (binExp_test_nonneg hd he).mp ht
    · rw [if_neg ht]
      exact ⟨not_lt.mp (fun h => ht ((binExp_test_nonneg hd he).mpr h)), hup⟩
  · rw [if_neg he]
    have he2 : (bitLen n : Int) - (bitLen d : Int) < 0 := not_le.mp he
    by_cases ht : n * 2 ^ (-((bitLen n : Int) - (bitLen d : Int))).toNat < d
    · rw [if_pos ht]
      refine ⟨hlo, ?_⟩
      rw [sub_add_cancel]
      exact (binExp_test_neg hd he2).mp ht
    · rw [if_neg ht]
      exact ⟨not_lt.mp (fun h => ht ((binExp_test_neg hd he2).mpr h)), hup⟩

theorem binExp_mono {n d n2 d2 : Nat} (hn : n ≠ 0) (hd : d ≠ 0) (hn2 : n2 ≠ 0) (hd2 : d2 ≠ 0)
    (h : (n : ℚ) / d ≤ (n2 : ℚ) / d2) : binExp n d ≤ binExp n2 d2 := by
  have h1 := (binExp_spec hn hd).1
  have h2 := (binExp_spec hn2 hd2).2
  have h3 : (2 : ℚ) ^ binExp n d < (2 : ℚ) ^ (binExp n2 d2 + 1) :=
    lt_of_le_of_lt (le_trans h1 h) h2
  have h4 := (zpow_lt_zpow_iff_right₀ (by norm_num : (1 : ℚ) < 2)).mp h3
  omega


theorem roundHalfEven_mul (K D : Nat) (hD : 0 < D) : roundHalfEven (K * D) D = K := by
  unfold roundHalfEven
  rw [Nat.mul_mod_left, Nat.mul_div_cancel K hD, if_pos (by omega)]

theorem zpow_two_of_nonneg {q : Int} (hq : 0 ≤ q) : (2 : ℚ) ^ q = ((2 ^ q.toNat : Nat) : ℚ) := by
  conv_lhs => rw [← Int.toNat_of_nonneg hq]
  rw [zpow_natCast]; push_cast; rfl

theorem zpow_two_of_neg {q : Int} (hq : q < 0) :
    (2 : ℚ) ^ q = 1 / ((2 ^ (-q).toNat : Nat) : ℚ) := by
  have h1 : q = - ((-q).toNat : Int) := by omega
  conv_lhs => rw [h1]
  rw [zpow_neg, zpow_natCast]; push_cast; simp

theorem rnd64Nat_exact {n d : Nat} (hn : n ≠ 0) (hd : d ≠ 0) (K : Nat)
    (hK : (n : ℚ) / d = (K : ℚ) * (2 : ℚ) ^ (max (binExp n d - 52) (-1074))) :
    rnd64Nat n d = (n : ℚ) / d := by
  have dpos : (0 : ℚ) < d := by exact_mod_cast Nat.pos_of_ne_zero hd
  have dposN : 0 < d := Nat.pos_of_ne_zero hd
  unfold rnd64Nat
  rw [if_neg hn]
  simp only []
  by_cases hq : max (binExp n d - 52) (-1074) ≥ 0
  · rw [if_pos hq]
    rw [zpow_two_of_nonneg hq] at hK
    have hnat : n = K * (d * 2 ^ (max (binExp n d - 52) (-1074)).toNat) := by
      have h1 : (n : ℚ) = ((K * (d * 2 ^ (max (binExp n d - 52) (-1074)).toNat) : Nat) : ℚ) := by
        rw [div_eq_iff dpos.ne'] at hK
        rw [hK]; push_cast; ring
      exact_mod_cast h1
    have hD : 0 < d * 2 ^ (max (binExp n d - 52) (-1074)).toNat :=
      Nat.mul_pos dposN (Nat.two_pow_pos _)
    have hrhe : roundHalfEven n (d * 2 ^ (max (binExp n d - 52) (-1074)).toNat) = K := by
      have h2 := roundHalfEven_mul K _ hD
      rwa [← hnat] at h2
    rw [hrhe, hK]; push_cast; ring
  · rw [if_neg hq]
    have hq2 : max (binExp n d - 52) (-1074) < 0 := not_le.mp hq
    rw [zpow_two_of_neg hq2] at hK
    have hpos : (0 : ℚ) < ((2 ^ (-(max (binExp n d - 52) (-1074))).toNat : Nat) : ℚ) := by
      positivity
    have hnat : n * 2 ^ (-(max (binExp n d - 52) (-1074))).toNat = K * d := by
      have h1 : ((n * 2 ^ (-(max (binExp n d - 52) (-1074))).toNat : Nat) : ℚ) =
          ((K * d : Nat) : ℚ) := by
        rw [mul_one_div, div_eq_div_iff dpos.ne' hpos.ne'] at hK
        rw [Nat.cast_mul, hK, Nat.cast_mul]
      exact_mod_cast h1
    rw [hnat, roundHalfEven_mul K d dposN, hK, mul_one_div]

theorem rnd64Nat_form {n d : Nat} (hn : n ≠ 0) :
    ∃ K : Nat, rnd64Nat n d = (K : ℚ) * (2 : ℚ) ^ (max (binExp n d - 52) (-1074)) := by
  unfold rnd64Nat
  rw [if_neg hn]
  simp only []
  by_cases hq : max (binExp n d - 52) (-1074) ≥ 0
  · rw [if_pos hq, zpow_two_of_nonneg hq]
    exact ⟨_, by push_cast; ring⟩
  · rw [if_neg hq, zpow_two_of_neg (not_le.mp hq)]
    exact ⟨_, by rw [mul_one_div]⟩

theorem rnd64_of_nonneg {x : ℚ} (hx : 0 ≤ x) : rnd64 x = rnd64Nat x.num.natAbs x.den := by
  unfold rnd64
  rw [if_neg (not_lt.mpr (Rat.num_nonneg.mpr hx))]

theorem natAbs_div_den {x : ℚ} (hx : 0 ≤ x) : ((x.num.natAbs : Nat) : ℚ) / (x.den : ℚ) = x := by
  have h : ((x.num.natAbs : Nat) : ℚ) = ((x.num : Int) : ℚ) := by
    have h1 : ((x.num.natAbs : Nat) : Int) = x.num := Int.natAbs_of_nonneg (Rat.num_nonneg.mpr hx)
    rw [← Int.cast_natCast, h1]
  rw [h]
  exact Rat.num_div_den x

theorem natAbs_num_ne_zero {x : ℚ} (hx : x ≠ 0) : x.num.natAbs ≠ 0 := by
  intro h
  exact hx (Rat.num_eq_zero.mp (Int.natAbs_eq_zero.mp h))


theorem rnd64_zero : rnd64 0 = 0 := by
  simp [rnd64, rnd64Nat]

theorem rnd64_fract_exact {v : ℚ} (hv : 0 ≤ v) (hdbl : rnd64 v = v) :
    rnd64 (v - (⌊v⌋ : ℚ)) = v - (⌊v⌋ : ℚ) := by
  have hf0 : (0 : ℚ) ≤ v - (⌊v⌋ : ℚ) := sub_nonneg.mpr (Int.floor_le v)
  have hf1 : v - (⌊v⌋ : ℚ) < 1 := by
    have := Int.lt_floor_add_one v
    linarith
  by_cases hf : v - (⌊v⌋ : ℚ) = 0
  · rw [hf]; exact rnd64_zero
  · have hfpos : (0 : ℚ) < v - (⌊v⌋ : ℚ) := lt_of_le_of_ne hf0 (Ne.symm hf)
    have hfl0 : (0 : ℚ) ≤ (⌊v⌋ : ℚ) := by exact_mod_cast Int.floor_nonneg.mpr hv
    have hfv : v - (⌊v⌋ : ℚ) ≤ v := sub_le_self _ hfl0
    have hvne : v ≠ 0 := (lt_of_lt_of_le hfpos hfv).ne'
    have hnf := natAbs_num_ne_zero hf
    have hdf : (v - (⌊v⌋ : ℚ)).den ≠ 0 := Rat.den_nz _
    have hnv := natAbs_num_ne_zero hvne
    have hdv : v.den ≠ 0 := Rat.den_nz _
    have hfq := natAbs_div_den hf0
    have hvq := natAbs_div_den hv
    obtain ⟨Kv, hKv⟩ := rnd64Nat_form (d := v.den) hnv
    rw [← rnd64_of_nonneg hv, hdbl] at hKv
    have hmono : binExp (v - (⌊v⌋ : ℚ)).num.natAbs (v - (⌊v⌋ : ℚ)).den ≤
        binExp v.num.natAbs v.den :=
      binExp_mono hnf hdf hnv hdv (by rw [hfq, hvq]; exact hfv)
    have hef : binExp (v - (⌊v⌋ : ℚ)).num.natAbs (v - (⌊v⌋ : ℚ)).den < 0 := by
      have h1 := (binExp_spec hnf hdf).1
      rw [hfq] at h1
      have h2 : (2 : ℚ) ^ binExp (v - (⌊v⌋ : ℚ)).num.natAbs (v - (⌊v⌋ : ℚ)).den <
          (2 : ℚ) ^ (0 : Int) := by
        rw [zpow_zero]; exact lt_of_le_of_lt h1 hf1
      exact (zpow_lt_zpow_iff_right₀ (by norm_num : (1 : ℚ) < 2)).mp h2
    generalize hqf : max (binExp (v - (⌊v⌋ : ℚ)).num.natAbs (v - (⌊v⌋ : ℚ)).den - 52) (-1074) = qf
    generalize hqv : max (binExp v.num.natAbs v.den - 52) (-1074) = qv at hKv
    have hqf0 : qf < 0 := by
      rw [← hqf]; exact max_lt (by omega) (by norm_num)
    have hqq : qf ≤ qv := by
      rw [← hqf, ← hqv]; exact max_le_max (by omega) le_rfl
    have two : (2 : ℚ) ≠ 0 := by norm_num
    have hA : v - (⌊v⌋ : ℚ) =
        (((Kv : Int) * 2 ^ (qv - qf).toNat - ⌊v⌋ * 2 ^ (-qf).toNat : Int) : ℚ) * (2 : ℚ) ^ qf := by
      have e1 : ((2 : ℚ) ^ (qv - qf).toNat) * (2 : ℚ) ^ qf = (2 : ℚ) ^ qv := by
        rw [← zpow_natCast, Int.toNat_of_nonneg (by omega), ← zpow_add₀ two]
        congr 1; ring
      have e2 : ((2 : ℚ) ^ (-qf).toNat) * (2 : ℚ) ^ qf = 1 := by
        rw [← zpow_natCast, Int.toNat_of_nonneg (by omega), ← zpow_add₀ two]
        simp
      push_cast
      rw [sub_mul, mul_assoc, e1, mul_assoc, e2, mul_one, ← hKv]
    have hA0 : 0 ≤ (Kv : Int) * 2 ^ (qv - qf).toNat - ⌊v⌋ * 2 ^ (-qf).toNat := by
      by_contra hneg
      have hlt : (((Kv : Int) * 2 ^ (qv - qf).toNat - ⌊v⌋ * 2 ^ (-qf).toNat : Int) : ℚ) < 0 := by
        exact_mod_cast not_le.mp hneg
      have hp : (0 : ℚ) < (2 : ℚ) ^ qf := by positivity
      have := mul_neg_of_neg_of_pos hlt hp
      rw [← hA] at this
      exact absurd hf0 (not_le.mpr this)
    rw [rnd64_of_nonneg hf0]
    have hex := rnd64Nat_exact hnf hdf
      ((Kv : Int) * 2 ^ (qv - qf).toNat - ⌊v⌋ * 2 ^ (-qf).toNat).toNat (by
        rw [hfq, hqf]
        have hc : ((((Kv : Int) * 2 ^ (qv - qf).toNat - ⌊v⌋ * 2 ^ (-qf).toNat).toNat : Nat) : ℚ) =
            (((Kv : Int) * 2 ^ (qv - qf).toNat - ⌊v⌋ * 2 ^ (-qf).toNat : Int) : ℚ) := by
          rw [← Int.cast_natCast, Int.toNat_of_nonneg hA0]
        rw [hc]
        exact hA)
    rw [hex, hfq]

theorem fsub_floor_nonneg (x : Double) : 0 ≤ fsub x (ofInt ⌊x⌋) :=
  rnd64_nonneg (sub_nonneg.mpr (Int.floor_le x))

theorem fmul_nonneg {a b : Double} (ha : 0 ≤ a) (hb : 0 ≤ b) : 0 ≤ fmul a b :=
  rnd64_nonneg (mul_nonneg ha hb)

theorem roundHalfEven_le (n d : Nat) : roundHalfEven n d ≤ n / d + 1 := by
  unfold roundHalfEven
  split_ifs <;> omega

theorem rnd64Nat_le {n d : Nat} (hd : d ≠ 0) : rnd64Nat n d ≤ 2 * ((n : ℚ) / d) + 1 := by
  have dpos : (0 : ℚ) < d := by exact_mod_cast Nat.pos_of_ne_zero hd
  have hx0 : (0 : ℚ) ≤ (n : ℚ) / d := by positivity
  by_cases hn : n = 0
  · unfold rnd64Nat
    rw [if_pos hn]
    linarith
  · have hspec := (binExp_spec hn hd).1
    unfold rnd64Nat
    rw [if_neg hn]
    simp only []
    by_cases hq : max (binExp n d - 52) (-1074) ≥ 0
    · rw [if_pos hq]
      have hqe : max (binExp n d - 52) (-1074) ≤ binExp n d := max_le (by omega) (by omega)
      have hpow : ((2 ^ (max (binExp n d - 52) (-1074)).toNat : Nat) : ℚ) ≤ (n : ℚ) / d := by
        rw [← zpow_two_of_nonneg hq]
        exact le_trans (zpow_le_zpow_right₀ (by norm_num) hqe) hspec
      have hppos : (0 : ℚ) < ((2 ^ (max (binExp n d - 52) (-1074)).toNat : Nat) : ℚ) := by
        positivity
      have h1 : ((roundHalfEven n (d * 2 ^ (max (binExp n d - 52) (-1074)).toNat) : Nat) : ℚ) ≤
          (n : ℚ) / ((d * 2 ^ (max (binExp n d - 52) (-1074)).toNat : Nat) : ℚ) + 1 := by
        have h2 : ((roundHalfEven n (d * 2 ^ (max (binExp n d - 52) (-1074)).toNat) : Nat) : ℚ) ≤
            ((n / (d * 2 ^ (max (binExp n d - 52) (-1074)).toNat) + 1 : Nat) : ℚ) := by
          exact_mod_cast roundHalfEven_le n _
        have h3 : ((n / (d * 2 ^ (max (binExp n d - 52) (-1074)).toNat) : Nat) : ℚ) ≤
            (n : ℚ) / ((d * 2 ^ (max (binExp n d - 52) (-1074)).toNat : Nat) : ℚ) :=
          Nat.cast_div_le
        push_cast at h2 h3 ⊢
        linarith
      have h4 : (n : ℚ) / ((d * 2 ^ (max (binExp n d - 52) (-1074)).toNat : Nat) : ℚ) *
          ((2 ^ (max (binExp n d - 52) (-1074)).toNat : Nat) : ℚ) = (n : ℚ) / d := by
        push_cast
        field_simp
        ring
      calc ((roundHalfEven n (d * 2 ^ (max (binExp n d - 52) (-1074)).toNat) *
              2 ^ (max (binExp n d - 52) (-1074)).toNat : Nat) : ℚ)
          = ((roundHalfEven n (d * 2 ^ (max (binExp n d - 52) (-1074)).toNat) : Nat) : ℚ) *
              ((2 ^ (max (binExp n d - 52) (-1074)).toNat : Nat) : ℚ) := by push_cast; ring
        _ ≤ ((n : ℚ) / ((d * 2 ^ (max (binExp n d - 52) (-1074)).toNat : Nat) : ℚ) + 1) *
              ((2 ^ (max (binExp n d - 52) (-1074)).toNat : Nat) : ℚ) :=
            mul_le_mul_of_nonneg_right h1 hppos.le
        _ = (n : ℚ) / d + ((2 ^ (max (binExp n d - 52) (-1074)).toNat : Nat) : ℚ) := by
            rw [add_mul, h4, one_mul]
        _ ≤ 2 * ((n : ℚ) / d) + 1 := by linarith
    · rw [if_neg hq]
      have hppos : (0 : ℚ) < ((2 ^ (-(max (binExp n d - 52) (-1074))).toNat : Nat) : ℚ) := by
        positivity
      have hpge : (1 : ℚ) ≤ ((2 ^ (-(max (binExp n d - 52) (-1074))).toNat : Nat) : ℚ) := by
        exact_mod_cast Nat.one_le_two_pow
      have h1 : ((roundHalfEven (n * 2 ^ (-(max (binExp n d - 52) (-1074))).toNat) d : Nat) : ℚ) ≤
          ((n * 2 ^ (-(max (binExp n d - 52) (-1074))).toNat : Nat) : ℚ) / d + 1 := by
        have h2 : ((roundHalfEven (n * 2 ^ (-(max (binExp n d - 52) (-1074))).toNat) d : Nat) : ℚ) ≤
            ((n * 2 ^ (-(max (binExp n d - 52) (-1074))).toNat / d + 1 : Nat) : ℚ) := by
          exact_mod_cast roundHalfEven_le _ d
        have h3 : ((n * 2 ^ (-(max (binExp n d - 52) (-1074))).toNat / d : Nat) : ℚ) ≤
            ((n * 2 ^ (-(max (binExp n d - 52) (-1074))).toNat : Nat) : ℚ) / d :=
          Nat.cast_div_le
        push_cast at h2 h3 ⊢
        linarith
      rw [div_le_iff₀ hppos]
      calc ((roundHalfEven (n * 2 ^ (-(max (binExp n d - 52) (-1074))).toNat) d : Nat) : ℚ)
          ≤ ((n * 2 ^ (-(max (binExp n d - 52) (-1074))).toNat : Nat) : ℚ) / d + 1 := h1
        _ = (n : ℚ) / d * ((2 ^ (-(max (binExp n d - 52) (-1074))).toNat : Nat) : ℚ) + 1 := by
            push_cast; ring
        _ ≤ (2 * ((n : ℚ) / d) + 1) *
              ((2 ^ (-(max (binExp n d - 52) (-1074))).toNat : Nat) : ℚ) := by
            nlinarith

theorem rnd64_le {x : ℚ} (hx : 0 ≤ x) : rnd64 x ≤ 2 * x + 1 := by
  rw [rnd64_of_nonneg hx]
  have h := rnd64Nat_le (n := x.num.natAbs) (Rat.den_nz x)
  rw [natAbs_div_den hx] at h
  exact h

theorem fmul_le {a u A : Double} (ha : 0 ≤ a) (hA : a ≤ A) (hu : 0 ≤ u) :
    fmul a u ≤ 2 * (A * u) + 1 := by
  have h := rnd64_le (mul_nonneg ha hu)
  have h2 : a * u ≤ A * u := mul_le_mul_of_nonneg_right hA hu
  unfold fmul
  linarith

theorem frac_step_of_nonneg {x : Double} (hx : 0 ≤ x) (hlt : x < 2147483648) :
    fsub x (ofInt (toInt x)) = fsub x (ofInt ⌊x⌋) ∧
      0 ≤ fsub x (ofInt ⌊x⌋) ∧ fsub x (ofInt ⌊x⌋) ≤ 3 := by
  rw [toInt_of_nonneg hx hlt]
  refine ⟨rfl, fsub_floor_nonneg x, ?_⟩
  have h0 : (0 : ℚ) ≤ x - (⌊x⌋ : ℚ) := sub_nonneg.mpr (Int.floor_le x)
  have h1 : x - (⌊x⌋ : ℚ) < 1 := by
    have := Int.lt_floor_add_one x
    linarith
  have h := rnd64_le h0
  unfold fsub ofInt
  linarith

theorem static_cast_int_of_le {n : Nat} (h : n ≤ INT_MAX) : static_cast_int n = (n : Int) := by
  unfold INT_MAX at h
  unfold static_cast_int
  have h1 : n % 2 ^ 32 = n := Nat.mod_eq_of_lt (by omega)
  rw [h1, if_pos (by omega)]

theorem alloc_length (P : Platform) (n : Nat) : (alloc P n).length = n := by
  simp [alloc]

theorem store_length (buf written : List Nat) : (store buf written).length = buf.length := by
  simp [store]
  omega

theorem store_eq_self {buf written : List Nat} (h : written.length = buf.length) :
    store buf written = written := by
  unfold store
  rw [List.drop_of_length_le (le_of_eq h.symm), List.append_nil, ← h, List.take_length]

theorem SysStringLen_of_le {w : List Nat} (h : w.length ≤ INT_MAX) : SysStringLen w = w.length := by
  unfold INT_MAX at h
  unfold SysStringLen
  exact Nat.mod_eq_of_lt (by omega)

theorem bstr2string_try_oversized (P : Platform) (w : List Nat) (nullTerminated : Bool)
    (hbig : INT_MAX < SysStringLen w) :
    bstr2string_try P (some w) nullTerminated = (.error .string_too_long, []) := by
  simp only [bstr2string_try, gt_iff_lt, if_pos hbig]

theorem bstr2string_oversized (P : Platform) (w : List Nat) (nullTerminated : Bool)
    (hbig : INT_MAX < SysStringLen w) : bstr2string P (some w) nullTerminated = [] := by
  simp only [bstr2string, bstr2string_try_oversized P w nullTerminated hbig]

theorem bstr2string_null (P : Platform) (nullTerminated : Bool) :
    bstr2string P none nullTerminated = [] := rfl

theorem oversized_length (a : Nat) : INT_MAX < SysStringLen (List.replicate 2147483648 a) := by
  have h : (List.replicate 2147483648 a).length = 2147483648 := List.length_replicate 2147483648 a
  unfold SysStringLen
  rw [h]
  decide

theorem getLast?_set_last (l : List Nat) (n : Nat) (h : l.length = n + 1) :
    ((l.set n 0).take (n + 1)).getLast? = some 0 := by
  have hl : (l.set n 0).length = n + 1 := by simp [h]
  rw [List.take_of_length_le (le_of_eq hl), List.getLast?_eq_getElem?, hl]
  simp [h]

theorem log_closed {α : Type} (vfprintf : CString → α → List Char) (oob : Char)
    (s : LogState) (who what : Option CString) (args : α) (h : s.log_file = none) :
    log vfprintf oob s who what args = s := by
  unfold log
  rw [h]

/-! ## The claims -/

/-- Claim C1, evaluated on the reference native conversions.  The timestamp
2008-06-15 14:30:07.250 comes back unchanged.  For 2008-06-15 14:30:07.999,
`SystemTimeToVariantTimeWithMilliseconds` succeeds, and
`VariantTimeToSystemTimeWithMilliseconds` then returns 14:30:08.000: the sum
`milliseconds + 0.5` is about `999.5`, which the test `milliseconds > 999.0`
resets to zero, so the unshifted native conversion rounds to the next second
and the millisecond field `999` does not come back. -/
theorem millisecond_999_not_restored :
    (SystemTimeToVariantTimeWithMilliseconds Ref.SystemTimeToVariantTime
        ⟨2008, 6, 0, 15, 14, 30, 7, 250⟩).bind
      (VariantTimeToSystemTimeWithMilliseconds Ref.VariantTimeToSystemTime) =
    some ⟨2008, 6, 0, 15, 14, 30, 7, 250⟩ ∧
    (SystemTimeToVariantTimeWithMilliseconds Ref.SystemTimeToVariantTime
        ⟨2008, 6, 0, 15, 14, 30, 7, 999⟩).map millisecondsRounded =
    some (33537662591 / 33554432) ∧
    (SystemTimeToVariantTimeWithMilliseconds Ref.SystemTimeToVariantTime
        ⟨2008, 6, 0, 15, 14, 30, 7, 999⟩).bind
      (VariantTimeToSystemTimeWithMilliseconds Ref.VariantTimeToSystemTime) =
    some ⟨2008, 6, 0, 15, 14, 30, 8, 0⟩ := by
  decide!

/-- Claim C2, amended: for every byte string `b` of at most `INT_MAX` bytes
that is empty or that the platform transcodes to some wide text and back
(`RoundTrips`), `bstr2string (string2bstr b (len b)) false` is `b`, with the
same length and the same bytes. -/
theorem string_roundtrip (P : Platform) (b : List Nat) (hlen : b.length ≤ INT_MAX)
    (hrep : b ≠ [] → ∃ w, RoundTrips P b w) :
    bstr2string P (string2bstr P (some b) b.length) false = b := by
  by_cases hb : b = []
  · subst hb
    simp [string2bstr, string2bstr_try, bstr2string, bstr2string_try, SysStringLen]
  · obtain ⟨w, hw⟩ := hrep hb
    have hbl : b.length ≠ 0 := fun h => hb (List.length_eq_zero.mp h)
    have hwl : w.length ≠ 0 := Nat.pos_iff_ne_zero.mp hw.wide_pos
    have hnot : ¬ (b.length ≠ SIZE_MAX ∧ b.length > INT_MAX) := fun h => absurd hlen (not_le.mpr h.2)
    have h1 : string2bstr P (some b) b.length = some w := by
      simp only [string2bstr, string2bstr_try, if_neg hbl, if_neg hnot,
        static_cast_int_of_le hlen, hw.mb_size, if_neg hwl, hw.mb_conv, List.take_length]
      rw [store_eq_self (by rw [alloc_length])]
    rw [h1]
    have hwi : ¬ w.length > INT_MAX := not_lt.mpr hw.wide_le
    simp only [bstr2string, bstr2string_try, SysStringLen_of_le hw.wide_le, if_neg hwi,
      if_neg hwl, static_cast_int_of_le hw.wide_le, hw.wc_size, if_neg hbl, hw.wc_conv,
      List.take_length, Bool.false_eq_true, if_false, Nat.add_zero]
    rw [store_eq_self (by rw [alloc_length]), List.take_length]

/-- The reference code page transcodes "Ver Laptop" to itself and back. -/
theorem latin1_roundTrips :
    RoundTrips Ref.latin1 [86, 101, 114, 32, 76, 97, 112, 116, 111, 112]
      [86, 101, 114, 32, 76, 97, 112, 116, 111, 112] := by
  constructor <;> decide

/-- Claim C2, witness: "Ver Laptop" (10 bytes) under the reference single-byte
code page. -/
theorem string_roundtrip_witness :
    bstr2string Ref.latin1
      (string2bstr Ref.latin1 (some [86, 101, 114, 32, 76, 97, 112, 116, 111, 112])
        [86, 101, 114, 32, 76, 97, 112, 116, 111, 112].length) false =
      [86, 101, 114, 32, 76, 97, 112, 116, 111, 112] :=
  string_roundtrip Ref.latin1 [86, 101, 114, 32, 76, 97, 112, 116, 111, 112] (by decide)
    (fun _ => ⟨_, latin1_roundTrips⟩)

theorem string2bstr_oversized (P : Platform) (s : List Nat) {len : Nat}
    (h1 : INT_MAX < len) (h2 : len ≠ SIZE_MAX) : string2bstr P (some s) len = none := by
  have h0 : len ≠ 0 := by
    intro h; rw [h] at h1; exact absurd h1 (by decide)
  simp only [string2bstr, string2bstr_try, if_neg h0, gt_iff_lt, if_pos (And.intro h2 h1)]

theorem replicate_length_gt (a : Nat) : INT_MAX < (List.replicate 2147483648 a).length :=
  Nat.lt_of_lt_of_eq (by decide : INT_MAX < 2147483648) (List.length_replicate 2147483648 a).symm

/-- Claim C2, counterexample: a byte string of `2^31` letters `a` does not come
back; `string2bstr` rejects the length and returns the null `BSTR`, which
`bstr2string` converts to the empty buffer. -/
theorem string_roundtrip_fails_when_oversized :
    bstr2string Ref.latin1
      (string2bstr Ref.latin1 (some (List.replicate 2147483648 97))
        (List.replicate 2147483648 97).length) false ≠ List.replicate 2147483648 97 := by
  have hne : (List.replicate 2147483648 97).length ≠ SIZE_MAX := by
    rw [List.length_replicate]; decide
  rw [string2bstr_oversized Ref.latin1 _ (replicate_length_gt 97) hne]
  intro hEq
  have h2 : (bstr2string Ref.latin1 none false).length = (List.replicate 2147483648 97).length :=
    congrArg List.length hEq
  rw [List.length_replicate] at h2
  exact absurd h2 (by decide)

/-- Claim C3, amended: for every wide string whose code-unit count exceeds
`INT_MAX`, the `try` block of `bstr2string` raises "string too long" before
any transcoder call or buffer allocation (the call trace is empty); the
`catch` clause of the same function turns it into the empty buffer, which is
also the result for the null `BSTR`. -/
theorem oversized_wide_degrades_to_empty (P : Platform) (w : List Nat) (nullTerminated : Bool)
    (hbig : INT_MAX < SysStringLen w) :
    bstr2string_try P (some w) nullTerminated = (.error .string_too_long, []) ∧
    bstr2string P (some w) nullTerminated = [] ∧
    bstr2string P (some w) nullTerminated = bstr2string P none nullTerminated :=
  ⟨bstr2string_try_oversized P w nullTerminated hbig,
   bstr2string_oversized P w nullTerminated hbig,
   (bstr2string_oversized P w nullTerminated hbig).trans (bstr2string_null P nullTerminated).symm⟩

/-- Claim C3, witness: a wide string of `2^31` units. -/
theorem oversized_wide_degrades_to_empty_witness :
    bstr2string_try Ref.latin1 (some (List.replicate 2147483648 65)) true =
        (.error .string_too_long, []) ∧
    bstr2string Ref.latin1 (some (List.replicate 2147483648 65)) true = [] ∧
    bstr2string Ref.latin1 (some (List.replicate 2147483648 65)) true =
      bstr2string Ref.latin1 none true :=
  oversized_wide_degrades_to_empty Ref.latin1 (List.replicate 2147483648 65) true
    (oversized_length 65)

/-- Claim C3, counterexample: for a wide string of `2^31` units the caller of
`bstr2string` receives exactly what it receives for the null `BSTR`, whose
conversion succeeds with the empty result; the failure cannot be told apart. -/
theorem oversized_wide_not_observable :
    INT_MAX < SysStringLen (List.replicate 2147483648 66) ∧
    (bstr2string_try Ref.latin1 none false).1 = .ok [] ∧
    bstr2string Ref.latin1 (some (List.replicate 2147483648 66)) false =
      bstr2string Ref.latin1 none false :=
  ⟨oversized_length 66, rfl,
   (bstr2string_oversized Ref.latin1 _ false (oversized_length 66)).trans
     (bstr2string_null Ref.latin1 false).symm⟩

/-- Claim C4, amended: for every wide string with `0 < SysStringLen ≤ INT_MAX`
on which the sizing query and the conversion both succeed (the buffer size
being an `int`), the logical length of the result is the number of bytes
reported by the sizing query, plus one when `nullTerminated`, and then its
last unit is the zero terminator.  For the null `BSTR` and for a `BSTR` of
length zero the result is the empty buffer (logical length `0`), whatever
`nullTerminated` is. -/
theorem terminator_accounting (P : Platform) (w : List Nat) (nullTerminated : Bool)
    (hpos : SysStringLen w ≠ 0) (hle : SysStringLen w ≤ INT_MAX)
    (hsize : (P.WideCharToMultiByte w (SysStringLen w : Int) 0).1 ≠ 0)
    (_hfit : (P.WideCharToMultiByte w (SysStringLen w : Int) 0).1 +
              (if nullTerminated then 1 else 0) ≤ INT_MAX)
    (hconv : (P.WideCharToMultiByte w (SysStringLen w : Int)
                (P.WideCharToMultiByte w (SysStringLen w : Int) 0).1).1 ≠ 0) :
    (bstr2string P (some w) nullTerminated).length =
        (P.WideCharToMultiByte w (SysStringLen w : Int) 0).1 + (if nullTerminated then 1 else 0) ∧
    (nullTerminated = true → (bstr2string P (some w) nullTerminated).getLast? = some 0) ∧
    bstr2string P none nullTerminated = [] ∧
    (∀ e : List Nat, SysStringLen e = 0 → bstr2string P (some e) nullTerminated = []) := by
  have hgt : ¬ SysStringLen w > INT_MAX := not_lt.mpr hle
  have hval : bstr2string P (some w) nullTerminated =
      ((if nullTerminated then
          (store (alloc P ((P.WideCharToMultiByte w (SysStringLen w : Int) 0).1 +
              (if nullTerminated then 1 else 0)))
            ((P.WideCharToMultiByte w (SysStringLen w : Int)
              (P.WideCharToMultiByte w (SysStringLen w : Int) 0).1).2.take
                (P.WideCharToMultiByte w (SysStringLen w : Int) 0).1)).set
            (P.WideCharToMultiByte w (SysStringLen w : Int) 0).1 0
        else
          store (alloc P ((P.WideCharToMultiByte w (SysStringLen w : Int) 0).1 +
              (if nullTerminated then 1 else 0)))
            ((P.WideCharToMultiByte w (SysStringLen w : Int)
              (P.WideCharToMultiByte w (SysStringLen w : Int) 0).1).2.take
                (P.WideCharToMultiByte w (SysStringLen w : Int) 0).1)).take
        ((P.WideCharToMultiByte w (SysStringLen w : Int) 0).1 +
          (if nullTerminated then 1 else 0))) := by
    simp only [bstr2string, bstr2string_try, if_neg hgt, if_neg hpos,
      static_cast_int_of_le hle, if_neg hsize, if_neg hconv]
  refine ⟨?_, ?_, rfl, ?_⟩
  · rw [hval]
    cases nullTerminated <;> simp [store_length, alloc_length]
  · intro hnt
    subst hnt
    rw [hval]
    simp only [if_true]
    exact getLast?_set_last _ _ (by rw [store_length, alloc_length])
  · intro e he
    have hgt0 : ¬ (0 > INT_MAX) := by decide
    simp only [bstr2string, bstr2string_try, he, if_neg hgt0, if_true]

/-- Claim C4, witness: the wide string "Hi" with a terminator requested. -/
theorem terminator_accounting_witness :
    (bstr2string Ref.latin1 (some [72, 105]) true).length =
        (Ref.latin1.WideCharToMultiByte [72, 105] (SysStringLen [72, 105] : Int) 0).1 +
          (if true then 1 else 0) ∧
    (true = true → (bstr2string Ref.latin1 (some [72, 105]) true).getLast? = some 0) ∧
    bstr2string Ref.latin1 none true = [] ∧
    (∀ e : List Nat, SysStringLen e = 0 → bstr2string Ref.latin1 (some e) true = []) :=
  terminator_accounting Ref.latin1 [72, 105] true (by decide) (by decide) (by decide) (by decide)
    (by decide)

/-- Claim C4, counterexample: with `nullTerminated = true`, the null `BSTR` and
the empty `BSTR` give a buffer whose logical length is not `1`; it is the
buffer returned when no terminator is requested. -/
theorem null_terminated_empty_has_length_zero :
    (bstr2string Ref.latin1 none true).length ≠ 1 ∧
    (bstr2string Ref.latin1 (some []) true).length ≠ 1 ∧
    bstr2string Ref.latin1 none true = bstr2string Ref.latin1 none false := by
  decide

/-- Claim C5, evaluated on a platform whose sizing query for "abc" reports `3`
and whose conversion then reports failure (`0`): `string2bstr` does not look
at the second result and returns the allocated `BSTR` with the three units
that the allocation happened to hold. -/
theorem second_pass_failure_returns_unfilled_bstr :
    (Ref.secondPassFails.MultiByteToWideChar [97, 98, 99] (static_cast_int 3) 0).1 = 3 ∧
    (Ref.secondPassFails.MultiByteToWideChar [97, 98, 99] (static_cast_int 3) 3).1 = 0 ∧
    string2bstr Ref.secondPassFails (some [97, 98, 99]) 3 = some [204, 204, 204] := by
  decide
/-- Claim C6, amended: for every open sink, every tag and every non-empty
format with its arguments, `log` appends the tag, a colon and the formatted
message `M` to the stream, followed by one newline if and only if the FORMAT
string does not end in a newline; no other file, the sink pointer and the
set of open streams are unchanged. -/
theorem log_line_format {α : Type} (vfprintf : CString → α → List Char) (oob : Char)
    (s : LogState) (f who what : CString) (args : α)
    (hopen : s.log_file = some f) (hne : what ≠ []) :
    (log vfprintf oob s (some who) (some what) args).files f =
        some ((s.files f).getD [] ++
          (who ++ [':'] ++ vfprintf what args ++
            (if what.getLast? = some '\n' then [] else ['\n']))) ∧
    (∀ g, g ≠ f → (log vfprintf oob s (some who) (some what) args).files g = s.files g) ∧
    (log vfprintf oob s (some who) (some what) args).log_file = s.log_file ∧
    (log vfprintf oob s (some who) (some what) args).streams = s.streams := by
  obtain ⟨c, hc⟩ : ∃ c, what.getLast? = some c := by
    cases h : what.getLast? with
    | none => exact absurd (List.getLast?_eq_none_iff.mp h) hne
    | some c => exact ⟨c, rfl⟩
  unfold log
  rw [hopen]
  simp only [hc, Option.getD_some]
  by_cases hnl : c = '\n'
  · subst hnl
    simp only [ne_eq, not_true_eq_false, if_false, if_true]
    refine ⟨?_, ?_, hopen, rfl⟩
    · simp [fputs]
    · intro g hg
      simp [fputs, Function.update_noteq hg]
  · have hc2 : ¬ (some c = some '\n') := fun h => hnl (Option.some.inj h)
    simp only [ne_eq, hnl, not_false_eq_true, if_true, hc2, if_false]
    refine ⟨?_, ?_, hopen, rfl⟩
    · simp [fputs]
    · intro g hg
      simp [fputs, Function.update_noteq hg]

/-- Claim C6, witness: tag `t`, format `%s`, argument `a`. -/
theorem log_line_format_witness :
    (log Ref.vfprintf 'x' Ref.openSink (some ['t']) (some ['%', 's']) [['a']]).files
        ['l', 'o', 'g'] =
        some ((Ref.openSink.files ['l', 'o', 'g']).getD [] ++
          (['t'] ++ [':'] ++ Ref.vfprintf ['%', 's'] [['a']] ++
            (if ['%', 's'].getLast? = some '\n' then [] else ['\n']))) ∧
    (∀ g, g ≠ ['l', 'o', 'g'] →
      (log Ref.vfprintf 'x' Ref.openSink (some ['t']) (some ['%', 's']) [['a']]).files g =
        Ref.openSink.files g) ∧
    (log Ref.vfprintf 'x' Ref.openSink (some ['t']) (some ['%', 's']) [['a']]).log_file =
      Ref.openSink.log_file ∧
    (log Ref.vfprintf 'x' Ref.openSink (some ['t']) (some ['%', 's']) [['a']]).streams =
      Ref.openSink.streams :=
  log_line_format Ref.vfprintf 'x' Ref.openSink ['l', 'o', 'g'] ['t'] ['%', 's'] [['a']] rfl
    (by decide)

/-- Claim C6, counterexample: the format `%s` with the argument `a\n` gives the
message `a\n`, which already ends in a newline, and `log` still appends a
newline of its own: the file receives `t:a\n\n`, not `t:a\n`. -/
theorem log_doubles_newline_of_argument :
    Ref.vfprintf ['%', 's'] [['a', '\n']] = ['a', '\n'] ∧
    (log Ref.vfprintf 'x' Ref.openSink (some ['t']) (some ['%', 's']) [['a', '\n']]).files
        ['l', 'o', 'g'] = some ['t', ':', 'a', '\n', '\n'] ∧
    (log Ref.vfprintf 'x' Ref.openSink (some ['t']) (some ['%', 's']) [['a', '\n']]).files
        ['l', 'o', 'g'] ≠ some (['t', ':'] ++ Ref.vfprintf ['%', 's'] [['a', '\n']]) := by
  decide

/-- Claim C7: in every state `s'` reached by `CloseLogFile` or by an
`OpenLogFile` that returned `false`, the sink holds no stream, the stream that
was open has been closed, no file has changed, every `log` leaves the whole
state unchanged, and a further `CloseLogFile` changes nothing; in any state,
`log` with an absent tag or an absent message changes nothing. -/
theorem closed_sink_ignores_writes {α : Type} (vfprintf : CString → α → List Char) (oob : Char)
    (s s' : LogState) (name : CString) (who what : Option CString) (args : α)
    (hreach : s' = CloseLogFile s ∨
      (s' = (OpenLogFile s name).1 ∧ (OpenLogFile s name).2 = false)) :
    s'.log_file = none ∧
    s'.streams = (match s.log_file with
                  | some f => s.streams.erase f
                  | none => s.streams) ∧
    s'.files = s.files ∧
    log vfprintf oob s' who what args = s' ∧
    log vfprintf oob s none what args = s ∧
    log vfprintf oob s who none args = s ∧
    CloseLogFile s' = s' := by
  have hclose : (CloseLogFile s).log_file = none ∧
      (CloseLogFile s).streams = (match s.log_file with
                  | some f => s.streams.erase f
                  | none => s.streams) ∧ (CloseLogFile s).files = s.files ∧
      (CloseLogFile s).canOpen = s.canOpen := by
    unfold CloseLogFile
    cases h : s.log_file <;> simp [h]
  have hnoTag : log vfprintf oob s none what args = s := by
    unfold log; cases s.log_file <;> rfl
  have hnoMsg : log vfprintf oob s who none args = s := by
    unfold log; cases s.log_file <;> cases who <;> rfl
  have hmain : s'.log_file = none ∧
      s'.streams = (match s.log_file with
                  | some f => s.streams.erase f
                  | none => s.streams) ∧ s'.files = s.files := by
    rcases hreach with h | ⟨h, hfalse⟩
    · rw [h]; exact ⟨hclose.1, hclose.2.1, hclose.2.2.1⟩
    · unfold OpenLogFile at h hfalse
      by_cases hc : (CloseLogFile s).canOpen name = true
      · simp [hc] at hfalse
      · simp only [hc, if_false, Bool.false_eq_true] at h
        rw [h]
        exact ⟨rfl, hclose.2.1, hclose.2.2.1⟩
  refine ⟨hmain.1, hmain.2.1, hmain.2.2, log_closed vfprintf oob s' who what args hmain.1,
    hnoTag, hnoMsg, ?_⟩
  unfold CloseLogFile
  rw [hmain.1]

/-- Claim C7, witness: opening the file with the empty name fails on the
reference sink. -/
theorem closed_sink_ignores_writes_witness :
    (OpenLogFile Ref.openSink []).1.log_file = none ∧
    (OpenLogFile Ref.openSink []).1.streams =
      (match Ref.openSink.log_file with
        | some f => Ref.openSink.streams.erase f
        | none => Ref.openSink.streams) ∧
    (OpenLogFile Ref.openSink []).1.files = Ref.openSink.files ∧
    log Ref.vfprintf 'x' (OpenLogFile Ref.openSink []).1 (some ['t']) (some ['m']) [] =
      (OpenLogFile Ref.openSink []).1 ∧
    log Ref.vfprintf 'x' Ref.openSink none (some ['m']) [] = Ref.openSink ∧
    log Ref.vfprintf 'x' Ref.openSink (some ['t']) none [] = Ref.openSink ∧
    CloseLogFile (OpenLogFile Ref.openSink []).1 = (OpenLogFile Ref.openSink []).1 :=
  closed_sink_ignores_writes Ref.vfprintf 'x' Ref.openSink (OpenLogFile Ref.openSink []).1 []
    (some ['t']) (some ['m']) [] (Or.inr ⟨rfl, by decide⟩)
/-- Claim C9, amended: the chain uses the C conversion `(int)x`, which truncates
toward zero.  For every binary64 variant time `v` with `0 ≤ v < 2^31` (this
covers the supported dates from 1899-12-30 on) every conversion in the chain
stays inside the range of `int` and is a floor: the value before the range
test is the floor-based chain
`frac(v)*24 -> frac(.)*60 -> frac(.)*60 -> frac(.)*1000` plus `0.5`, and its
integer part is that chain rounded to the nearest millisecond. -/
theorem milliseconds_floor_chain_of_nonneg (v : Double) (hv : 0 ≤ v)
    (hrange : v < 2147483648) (hdouble : rnd64 v = v) :
    millisecondsRounded v = fadd (specMilliseconds v) (1 / 2) ∧
    toInt (millisecondsRounded v) = specRound (specMilliseconds v) := by
  have hexact : fsub v (ofInt ⌊v⌋) = v - (⌊v⌋ : ℚ) := rnd64_fract_exact hv hdouble
  have hf0 : (0 : ℚ) ≤ v - (⌊v⌋ : ℚ) := sub_nonneg.mpr (Int.floor_le v)
  have hf1 : v - (⌊v⌋ : ℚ) < 1 := by
    have := Int.lt_floor_add_one v
    linarith
  have h0 : fsub (fsub v (ofInt ⌊v⌋)) (ofInt (toInt (fsub v (ofInt ⌊v⌋)))) =
      fsub v (ofInt ⌊v⌋) := by
    have hfl : ⌊v - (⌊v⌋ : ℚ)⌋ = 0 :=
      Int.floor_eq_iff.mpr
        ⟨by rw [Int.cast_zero]; exact hf0, by rw [Int.cast_zero, zero_add]; exact hf1⟩
    have h2 : rnd64 (v - (⌊v⌋ : ℚ)) = v - (⌊v⌋ : ℚ) := hexact
    rw [hexact, toInt_of_nonneg hf0 (lt_trans hf1 (by norm_num)), hfl]
    simp only [fsub, ofInt, Int.cast_zero, sub_zero]
    exact h2
  -- hours
  have hh0 : 0 ≤ fmul (fsub v (ofInt ⌊v⌋)) 24 :=
    fmul_nonneg (fsub_floor_nonneg v) (by norm_num)
  have hh1 : fmul (fsub v (ofInt ⌊v⌋)) 24 < 2147483648 := by
    have h := fmul_le (fsub_floor_nonneg v) (le_of_eq hexact) (by norm_num : (0 : ℚ) ≤ 24)
    linarith
  obtain ⟨hs1, hs1a, hs1b⟩ := frac_step_of_nonneg hh0 hh1
  -- minutes
  have hm0 := fmul_nonneg hs1a (by norm_num : (0 : ℚ) ≤ 60)
  have hm1 : fmul (fsub (fmul (fsub v (ofInt ⌊v⌋)) 24)
      (ofInt ⌊fmul (fsub v (ofInt ⌊v⌋)) 24⌋)) 60 < 2147483648 := by
    have h := fmul_le hs1a hs1b (by norm_num : (0 : ℚ) ≤ 60)
    linarith
  obtain ⟨hs2, hs2a, hs2b⟩ := frac_step_of_nonneg hm0 hm1
  -- seconds
  have hc0 := fmul_nonneg hs2a (by norm_num : (0 : ℚ) ≤ 60)
  have hc1 := fmul_le hs2a hs2b (by norm_num : (0 : ℚ) ≤ 60)
  obtain ⟨hs3, hs3a, hs3b⟩ := frac_step_of_nonneg hc0 (lt_of_le_of_lt hc1 (by norm_num))
  -- milliseconds
  have hl0 := fmul_nonneg hs3a (by norm_num : (0 : ℚ) ≤ 1000)
  have hl1 := fmul_le hs3a hs3b (by norm_num : (0 : ℚ) ≤ 1000)
  have hchain : millisecondsRounded v = fadd (specMilliseconds v) (1 / 2) := by
    unfold millisecondsRounded specMilliseconds
    simp only []
    rw [toInt_of_nonneg hv hrange, h0, hs1, hs2, hs3]
  have hspec : specMilliseconds v = fmul (fsub (fmul (fsub (fmul (fsub (fmul (fsub v (ofInt ⌊v⌋)) 24)
      (ofInt ⌊fmul (fsub v (ofInt ⌊v⌋)) 24⌋)) 60) (ofInt ⌊fmul (fsub (fmul (fsub v (ofInt ⌊v⌋)) 24)
      (ofInt ⌊fmul (fsub v (ofInt ⌊v⌋)) 24⌋)) 60⌋)) 60) (ofInt ⌊fmul (fsub (fmul (fsub (fmul
      (fsub v (ofInt ⌊v⌋)) 24) (ofInt ⌊fmul (fsub v (ofInt ⌊v⌋)) 24⌋)) 60) (ofInt ⌊fmul (fsub
      (fmul (fsub v (ofInt ⌊v⌋)) 24) (ofInt ⌊fmul (fsub v (ofInt ⌊v⌋)) 24⌋)) 60⌋)) 60⌋)) 1000 := rfl
  refine ⟨hchain, ?_⟩
  rw [hchain]
  unfold specRound
  have hsum0 : (0 : ℚ) ≤ specMilliseconds v + 1 / 2 := by
    rw [hspec]; linarith
  have hr := rnd64_le hsum0
  apply toInt_of_nonneg (rnd64_nonneg hsum0)
  rw [hspec] at hr ⊢
  linarith

/-- Claim C9, witness: the variant time of 2008-06-15 14:30:07.250. -/
theorem milliseconds_floor_chain_of_nonneg_witness :
    millisecondsRounded (1361147437601745 / 34359738368) =
      fadd (specMilliseconds (1361147437601745 / 34359738368)) (1 / 2) ∧
    toInt (millisecondsRounded (1361147437601745 / 34359738368)) =
      specRound (specMilliseconds (1361147437601745 / 34359738368)) :=
  milliseconds_floor_chain_of_nonneg (1361147437601745 / 34359738368) (by decide!) (by decide!)
    (by decide!)

/-- Claim C9, counterexample: for negative `v` the two chains can differ.  At
`v = -1 - 2^-20` (1899-12-29, 82 ms after midnight) the code computes `-81.897...` before the range test, integer part
`-81`, while the floor-based chain rounds to `918`. -/
theorem truncation_differs_from_floor_for_negative :
    millisecondsRounded (-1048577 / 1048576) = -83863 / 1024 ∧
    toInt (millisecondsRounded (-1048577 / 1048576)) = -81 ∧
    fadd (specMilliseconds (-1048577 / 1048576)) (1 / 2) = 940137 / 1024 ∧
    specRound (specMilliseconds (-1048577 / 1048576)) = 918 := by
  decide!

/-- Claim C10, amended: for every input `v` the value handed to the native
conversion is `v - halfsecond`, where `halfsecond` is
`ONETHOUSANDMILLISECONDS / 2.0`, half of `0.0000115740740740` day, that is
half a second: about `0.000005787037037`, more than `0.00000578703703`. -/
theorem shift_is_half_second
    (VariantTimeToSystemTime : Double → Option SYSTEMTIME) (v : Double) :
    VariantTimeToSystemTimeWithMilliseconds VariantTimeToSystemTime v =
      (match VariantTimeToSystemTime (fsub v halfsecond) with
       | none => none
       | some st =>
         if millisecondsClamped v ≠ 0 then
           some { st with wMilliseconds := toWORD (millisecondsClamped v) }
         else VariantTimeToSystemTime v) ∧
    halfsecond = ONETHOUSANDMILLISECONDS / 2 ∧
    ONETHOUSANDMILLISECONDS = 1708031858665879 / 147573952589676412928 ∧
    (578703703 / 100000000000000 : ℚ) < halfsecond ∧
    halfsecond < 578703704 / 100000000000000 := by
  refine ⟨rfl, ?_, ?_, ?_, ?_⟩ <;> decide!

/-- Claim C10, counterexample: the shift is not `0.00000578703703 / 2`; already
at `v = 0` and at noon of 2008-06-15 the value handed to the native conversion
differs from `v` minus that amount. -/
theorem shift_is_not_claimed_half :
    halfsecond ≠ fdiv (rnd64 (578703703 / 100000000000000)) 2 ∧
    fsub 0 halfsecond ≠ fsub 0 (fdiv (rnd64 (578703703 / 100000000000000)) 2) ∧
    fsub (79229 / 2) halfsecond ≠
      fsub (79229 / 2) (fdiv (rnd64 (578703703 / 100000000000000)) 2) := by
  decide!

end TUtil
